import Mathlib

/-!
Verification of the chess-archive ingestion pipeline (`src/lib.rs`, `src/main.rs`).

Strings are modelled as `List Char` (the model of Rust `&str` / `String`);
machine integers as `Nat` / `Int` with explicit wrapping where Rust would wrap
(release-build two's-complement semantics; a debug build would abort at the
same inputs, so every divergence exhibited below is a divergence in either
profile). Rust panics are modelled by an explicit `PResult.panicked` value so
that "returns None" and "panics" are distinguishable. I/O collaborators
(the HTTP client, the filesystem, zstd) enter as explicit parameters:
file contents, remote status, and artifact-existence flags.
-/

set_option maxRecDepth 100000

namespace ChessRs

/-! ## Character and string primitives (models of Rust `str` operations) -/

/-- Model of Rust `str::to_lowercase` restricted to ASCII (all vocabulary
matched by this program is ASCII, where the two functions agree). -/
def toLowerChars (s : List Char) : List Char := s.map Char.toLower

/-- Does `l` start with `p`? (model of Rust `str::starts_with`, used to build
substring search). -/
def startsWithChars : List Char → List Char → Bool
  | _, [] => true
  | [], _ :: _ => false
  | a :: as, b :: bs => a == b && startsWithChars as bs

/-- Model of Rust `str::contains(&str)`: substring containment. -/
def containsChars : List Char → List Char → Bool
  | [], needle => needle.isEmpty
  | hay@(_ :: rest), needle => startsWithChars hay needle || containsChars rest needle

/-- Model of Rust `str::split(char)`: split on every occurrence of `c`,
keeping empty parts; the empty string yields one empty part. -/
def splitOnChar (c : Char) : List Char → List (List Char)
  | [] => [[]]
  | x :: xs =>
    if x == c then [] :: splitOnChar c xs
    else
      match splitOnChar c xs with
      | [] => [[x]]
      | l :: ls => (x :: l) :: ls

/-- Fuel-driven worker for `splitOnList` (fuel `≥` input length suffices for a
nonempty pattern, so the fuel-exhausted branch is unreachable in use). -/
def splitOnListGo (pat : List Char) : Nat → List Char → List Char → List (List Char)
  | _, acc, [] => [acc.reverse]
  | 0, acc, cs => [acc.reverse ++ cs]
  | fuel + 1, acc, c :: rest =>
    if startsWithChars (c :: rest) pat then
      acc.reverse :: splitOnListGo pat fuel [] ((c :: rest).drop pat.length)
    else
      splitOnListGo pat fuel (c :: acc) rest

/-- Model of Rust `str::split(&str)` for a nonempty pattern: split at each
non-overlapping left-to-right occurrence of `pat`. -/
def splitOnList (pat : List Char) (cs : List Char) : List (List Char) :=
  splitOnListGo pat cs.length [] cs

/-- Is `c` ASCII whitespace (model of `char::is_whitespace` on the ASCII
range, which is all this program's inputs exercise)? -/
def isSpaceChar (c : Char) : Bool :=
  c == ' ' || c == '\t' || c == '\n' || c == '\r' || c == '\x0b' || c == '\x0c'

/-- Model of Rust `str::trim`. -/
def trimChars (s : List Char) : List Char :=
  ((s.dropWhile isSpaceChar).reverse.dropWhile isSpaceChar).reverse

/-- Worker for `rustLines`: `acc` holds the current line reversed. -/
def rustLinesGo : List Char → List Char → List (List Char)
  | acc, [] => if acc.isEmpty then [] else [acc.reverse]
  | acc, c :: rest =>
    if c == '\n' then
      (match acc with
        | '\r' :: t => t.reverse
        | t => t.reverse) :: rustLinesGo [] rest
    else
      rustLinesGo (c :: acc) rest

/-- Model of Rust `str::lines`: split at `\n` or `\r\n`, the final line
ending optional, a trailing line ending producing no extra empty line. -/
def rustLines (s : List Char) : List (List Char) := rustLinesGo [] s

/-! ## Decimal numerals (models of Rust `FromStr` for `i32` / `u32` and
`Display` for `u32`) -/

/-- Numeric value of a digit string (left fold, as positional notation). -/
def digitsVal (cs : List Char) : Nat :=
  cs.foldl (fun n c => n * 10 + (c.toNat - 48)) 0

/-- All-digit check plus value: `none` unless `cs` is one or more ASCII
digits. -/
def digitsToNat (cs : List Char) : Option Nat :=
  if cs.isEmpty then none
  else if cs.all Char.isDigit then some (digitsVal cs) else none

/-- The signed value of an `i32` literal body: a leading `-` negates, a
leading `+` is consumed, the rest must be all digits. -/
def parseIntSigned (cs : List Char) : Option Int :=
  match cs with
  | [] => none
  | c :: r =>
    if c == '-' then (digitsToNat r).map (fun n => -(n : Int))
    else if c == '+' then (digitsToNat r).map (fun n => (n : Int))
    else (digitsToNat (c :: r)).map (fun n => (n : Int))

/-- Model of Rust `i32::from_str`: optional sign, then digits, whole input
consumed, value within `[-2^31, 2^31 - 1]`. -/
def parseI32 (cs : List Char) : Option Int :=
  (parseIntSigned cs).bind
    (fun v => if -(2 ^ 31) ≤ v ∧ v ≤ 2 ^ 31 - 1 then some v else none)

/-- The digit body of a `u32` literal: an optional leading `+` sign is
consumed (a leading `-` is not a digit, hence fails the digit check). -/
def parseNatBody (cs : List Char) : Option Nat :=
  match cs with
  | [] => none
  | c :: r => if c == '+' then digitsToNat r else digitsToNat (c :: r)

/-- Model of Rust `u32::from_str`: optional `+` sign, digits, whole input
consumed, value below `2^32`. -/
def parseU32 (cs : List Char) : Option Nat :=
  (parseNatBody cs).bind (fun n => if n < 2 ^ 32 then some n else none)

/-- The ASCII digit character for `d < 10`. -/
def digitChar : Nat → Char
  | 0 => '0' | 1 => '1' | 2 => '2' | 3 => '3' | 4 => '4'
  | 5 => '5' | 6 => '6' | 7 => '7' | 8 => '8' | 9 => '9'
  | _ => '*'

/-- Fuel-driven decimal rendering worker (fuel `n + 1` always suffices). -/
def natDigitsGo : Nat → Nat → List Char → List Char
  | 0, _, acc => acc
  | fuel + 1, n, acc =>
    if n < 10 then digitChar n :: acc
    else natDigitsGo fuel (n / 10) (digitChar (n % 10) :: acc)

/-- Model of Rust's decimal `Display` for unsigned integers. -/
def natRepr (n : Nat) : List Char := natDigitsGo (n + 1) n []

/-! ## Wrapping 32-bit arithmetic (release-build Rust semantics) -/

/-- Wrap an integer into the `i32` range (two's complement). -/
def wrap32 (z : Int) : Int := (z + 2 ^ 31) % 2 ^ 32 - 2 ^ 31

/-- Model of `i32` subtraction (wraps on overflow). -/
def i32sub (a b : Int) : Int := wrap32 (a - b)

/-- Model of `i32::abs` (wraps: `abs(i32::MIN) = i32::MIN`). -/
def i32abs (z : Int) : Int := wrap32 (if z < 0 then -z else z)

/-- Model of the Rust cast `x as u32` for an `i32` operand: value modulo
`2^32` reinterpreted as unsigned. -/
def u32ofI32 (z : Int) : Nat := (z % 2 ^ 32).toNat

/-! ## Panic model

Rust panics abort the computation (and, inside a rayon worker, abort the
whole parallel batch). `PResult.panicked msg` records a `panic!` with its
message; `PResult.ok` a normal return. -/

inductive PResult (α : Type) where
  | panicked : String → PResult α
  | ok : α → PResult α
deriving DecidableEq, Repr

/-- The effect of `parse_pgn_game`'s body: early return of `None` via `?`
(`Option`), or a panic (`PResult`). -/
abbrev MRes (α : Type) : Type := PResult (Option α)

instance : Monad MRes where
  pure a := PResult.ok (some a)
  bind x f :=
    match x with
    | .panicked m => .panicked m
    | .ok none => .ok none
    | .ok (some a) => f a

/-- Model of the `?` operator on an `Option` (`None` short-circuits the
surrounding function to `None`). -/
def liftOpt (o : Option α) : MRes α := .ok o

/-- Embed a possibly-panicking subcomputation. -/
def liftPan : PResult α → MRes α
  | .panicked m => .panicked m
  | .ok a => .ok (some a)

/-! ## Enumerations (`src/lib.rs` lines 6-117) -/

/-- `enum Winner { White, Black }`. -/
inductive Winner where
  | White
  | Black
deriving DecidableEq, Repr

/-- `enum TerminationType { Normal, TimeForfeit }`. -/
inductive TerminationType where
  | Normal
  | TimeForfeit
deriving DecidableEq, Repr

/-- `enum GameType { Bullet, Blitz, Rapid, Classical }` — note: no
`Unknown` variant exists in the source. -/
inductive GameType where
  | Bullet
  | Blitz
  | Rapid
  | Classical
deriving DecidableEq, Repr

/-- `impl FromStr for GameType` (lib.rs 67-78): case-insensitive match on
the four exact spellings. -/
def GameType.fromStr (s : List Char) : Option GameType :=
  let ls := toLowerChars s
  if ls == "bullet".data then some .Bullet
  else if ls == "blitz".data then some .Blitz
  else if ls == "rapid".data then some .Rapid
  else if ls == "classical".data then some .Classical
  else none

/-- `struct TimeControl(u32, u32)` (lib.rs 91-98). -/
structure TimeControl where
  minutes : Nat
  increment : Nat
deriving DecidableEq, Repr

/-- `impl Display for TimeControl` (lib.rs 100-104): `"<minutes>+<increment>"`. -/
def TimeControl.fmt (tc : TimeControl) : List Char :=
  natRepr tc.minutes ++ '+' :: natRepr tc.increment

/-- `impl FromStr for TimeControl` (lib.rs 106-117): split on `+`, demand
exactly two parts, parse each as `u32`. -/
def TimeControl.fromStr (s : List Char) : Option TimeControl :=
  match splitOnChar '+' s with
  | [a, b] =>
    match parseU32 a, parseU32 b with
    | some m, some i => some ⟨m, i⟩
    | _, _ => none
  | _ => none

/-- `extract_game_type_from_event_string` (lib.rs 149-164): keyword search
in priority order; on no match it builds the string `"Unknown (<event>)"`
and feeds it to `GameType::from_str`, whose failure makes
`.expect("Invalid game type")` panic. -/
def extract_game_type_from_event_string (event : List Char) : PResult GameType :=
  let out : List Char :=
    if containsChars (toLowerChars event) "bullet".data then "Bullet".data
    else if containsChars (toLowerChars event) "blitz".data then "Blitz".data
    else if containsChars (toLowerChars event) "rapid".data then "Rapid".data
    else if containsChars (toLowerChars event) "classical".data then "Classical".data
    else "Unknown (".data ++ event ++ ")".data
  match GameType.fromStr out with
  | some t => .ok t
  | none => .panicked "Invalid game type"

/-- `extract_winner_from_result_string` (lib.rs 167-174): three literal
tokens; `"1/2-1/2"` and anything else both give `None`. -/
def extract_winner_from_result_string (result : List Char) : Option Winner :=
  if result == "1-0".data then some .White
  else if result == "0-1".data then some .Black
  else none

/-- `extract_termination_type` (lib.rs 176-182): lowercase then match
`"normal"` / `"time forfeit"`; anything else hits
`panic!("Invalid termination type")`. -/
def extract_termination_type (termination : List Char) : PResult TerminationType :=
  let ls := toLowerChars termination
  if ls == "normal".data then .ok .Normal
  else if ls == "time forfeit".data then .ok .TimeForfeit
  else .panicked "Invalid termination type"

/-! ## Calendar dates and clock times (model of the chrono collaborator)

`chrono::NaiveDate::parse_from_str(_, "%Y.%m.%d")` and
`chrono::NaiveTime::parse_from_str(_, "%H:%M:%S")`: numeric fields read at
most their format width in digits, literal separators must match exactly,
the whole input must be consumed, and the assembled value must be a real
proleptic-Gregorian date (respectively a clock time, with `%S` admitting a
leap-second value of 60). Exotic chrono details (huge years near the
`NaiveDate` year bound, unicode digits) are outside what this program's
inputs and the claims exercise. -/

structure NaiveDate where
  year : Int
  month : Nat
  day : Nat
deriving DecidableEq, Repr

structure NaiveTime where
  hour : Nat
  minute : Nat
  second : Nat
deriving DecidableEq, Repr

/-- Proleptic-Gregorian leap-year rule (as used by chrono). -/
def isLeapYear (y : Int) : Bool :=
  y % 4 == 0 && (y % 100 != 0 || y % 400 == 0)

/-- Days in a month of the proleptic-Gregorian calendar. -/
def daysInMonth (y : Int) (m : Nat) : Nat :=
  if m == 2 then (if isLeapYear y then 29 else 28)
  else if m == 4 || m == 6 || m == 9 || m == 11 then 30
  else 31

/-- Read at most `w` digits (at least one) from the front: the parsed
value and the rest of the input. -/
def readNum (w : Nat) (cs : List Char) : Option (Nat × List Char) :=
  let ds := (cs.takeWhile Char.isDigit).take w
  if ds.isEmpty then none else some (digitsVal ds, cs.drop ds.length)

/-- Model of `NaiveDate::parse_from_str(s, "%Y.%m.%d")`. -/
def parseDateYMD (cs : List Char) : Option NaiveDate :=
  let (neg, rest) :=
    match cs with
    | '-' :: r => (true, r)
    | '+' :: r => (false, r)
    | r => (false, r)
  match readNum 9999 rest with
  | none => none
  | some (y, rest1) =>
    match rest1 with
    | '.' :: rest2 =>
      match readNum 2 rest2 with
      | none => none
      | some (m, rest3) =>
        match rest3 with
        | '.' :: rest4 =>
          match readNum 2 rest4 with
          | none => none
          | some (d, rest5) =>
            let yr : Int := if neg then -(y : Int) else (y : Int)
            if rest5.isEmpty ∧ 1 ≤ m ∧ m ≤ 12 ∧ 1 ≤ d ∧ d ≤ daysInMonth yr m then
              some ⟨yr, m, d⟩
            else none
        | _ => none
    | _ => none

/-- Model of `NaiveTime::parse_from_str(s, "%H:%M:%S")`. -/
def parseTimeHMS (cs : List Char) : Option NaiveTime :=
  match readNum 2 cs with
  | none => none
  | some (h, rest1) =>
    match rest1 with
    | ':' :: rest2 =>
      match readNum 2 rest2 with
      | none => none
      | some (mi, rest3) =>
        match rest3 with
        | ':' :: rest4 =>
          match readNum 2 rest4 with
          | none => none
          | some (s, rest5) =>
            if rest5.isEmpty ∧ h ≤ 23 ∧ mi ≤ 59 ∧ s ≤ 60 then
              some ⟨h, mi, s⟩
            else none
        | _ => none
    | _ => none

/-! ## Header-line grammar (`parse_pgn_game`, main.rs 33-48)

The regex `^\[(\w+)\s+"([^\"]+)"\]` applied to each trimmed line: a
leading `[`, one or more word characters (captured tag), one or more
whitespace characters, `"`, one or more non-quote characters (captured
value), `"]`; trailing characters after the `]` are ignored (the regex is
not end-anchored). Greedy matching of `\w+` / `\s+` / `[^\"]+` is
deterministic here because each class excludes its follower. -/

/-- Model of the regex class `\w` on ASCII. -/
def isWordChar (c : Char) : Bool := c.isAlphanum || c == '_'

/-- Match a trimmed line against the header regex, returning the captured
`(tag, value)` on success. -/
def parseHeaderLine (line : List Char) : Option (List Char × List Char) :=
  match line with
  | '[' :: rest =>
    let tag := rest.takeWhile isWordChar
    let rest1 := rest.dropWhile isWordChar
    if tag.isEmpty then none
    else
      let ws := rest1.takeWhile isSpaceChar
      let rest2 := rest1.dropWhile isSpaceChar
      if ws.isEmpty then none
      else
        match rest2 with
        | '"' :: rest3 =>
          let v := rest3.takeWhile (fun c => c != '"')
          let rest4 := rest3.dropWhile (fun c => c != '"')
          if v.isEmpty then none
          else
            match rest4 with
            | '"' :: ']' :: _ => some (tag, v)
            | _ => none
        | _ => none
  | _ => none

/-- The header scan of `parse_pgn_game` (main.rs 38-48): for each line,
trim, skip if empty, and insert a matching line's captures into the map.
The `HashMap` is modelled as an insertion-ordered association list; a
later insert of the same key shadows an earlier one via `getHeader`. -/
def collectHeaders (txt : List Char) : List (List Char × List Char) :=
  (rustLines txt).foldl
    (fun hs line =>
      let t := trimChars line
      if t.isEmpty then hs
      else
        match parseHeaderLine t with
        | some kv => hs ++ [kv]
        | none => hs)
    []

/-- Model of `HashMap::get`: the most recent insert of the key wins. -/
def getHeader (hs : List (List Char × List Char)) (k : List Char) : Option (List Char) :=
  (hs.reverse.find? (fun p => p.1 == k)).map (·.2)

/-! ## The record (`struct ChessGame`, lib.rs 120-140) -/

structure ChessGame where
  rated : Bool
  url : List Char
  game_type : GameType
  time_control : TimeControl
  white_player_name : List Char
  white_player_elo : Nat
  black_player_name : List Char
  black_player_elo : Nat
  rating_diff : Int
  winner : Option Winner
  termination_type : TerminationType
  date : Option NaiveDate
  time : Option NaiveTime
  opening_name : List Char
  opening_eco : List Char
  game_id : List Char
deriving DecidableEq, Repr

/-- The head-of-block sentinel values for unknown date and time. -/
def sentinelDate : List Char := "????.??.??".data

def sentinelTime : List Char := "??:??:??".data

/-- The second half of `parse_pgn_game` (main.rs 50-104): read the required
headers from the collected map, in source order, with `?` short-circuiting
to `None` and the two extract helpers able to panic; derive the computed
fields and build the record. `uuid` stands for the fresh
`Uuid::new_v4().to_string()` minted at line 101 (an RNG effect passed in
explicitly). -/
def parse_pgn_game_headers (uuid : List Char)
    (headers : List (List Char × List Char)) : MRes ChessGame := do
  let event ← liftOpt (getHeader headers "Event".data)
  let game_type ← liftPan (extract_game_type_from_event_string event)
  let website ← liftOpt (getHeader headers "Site".data)
  let white_player_name ← liftOpt (getHeader headers "White".data)
  let black_player_name ← liftOpt (getHeader headers "Black".data)
  let whiteEloStr ← liftOpt (getHeader headers "WhiteElo".data)
  let white_elo ← liftOpt (parseI32 whiteEloStr)
  let blackEloStr ← liftOpt (getHeader headers "BlackElo".data)
  let black_elo ← liftOpt (parseI32 blackEloStr)
  let tcStr ← liftOpt (getHeader headers "TimeControl".data)
  let time_control ← liftOpt (TimeControl.fromStr tcStr)
  let result ← liftOpt (getHeader headers "Result".data)
  let utc_date_str ← liftOpt (getHeader headers "UTCDate".data)
  let utc_time_str ← liftOpt (getHeader headers "UTCTime".data)
  let opening ← liftOpt (getHeader headers "Opening".data)
  let eco ← liftOpt (getHeader headers "ECO".data)
  let rated := !(containsChars (toLowerChars event) "unrated".data)
  let winner := extract_winner_from_result_string result
  let termStr ← liftOpt (getHeader headers "Termination".data)
  let termination_type ← liftPan (extract_termination_type termStr)
  let date := if utc_date_str == sentinelDate then none else parseDateYMD utc_date_str
  let time := if utc_time_str == sentinelTime then none else parseTimeHMS utc_time_str
  pure
    { rated := rated
      url := website
      game_type := game_type
      time_control := time_control
      white_player_name := white_player_name
      white_player_elo := u32ofI32 white_elo
      black_player_name := black_player_name
      black_player_elo := u32ofI32 black_elo
      rating_diff := i32abs (i32sub white_elo black_elo)
      winner := winner
      termination_type := termination_type
      date := date
      time := time
      opening_name := opening
      opening_eco := eco
      game_id := uuid }

/-- `parse_pgn_game` (main.rs 33-104): header scan then record
construction. Result `.ok (some g)` models `Some(g)`, `.ok none` models
`None`, `.panicked m` models a panic. -/
def parse_pgn_game (uuid : List Char) (pgn_text : List Char) : MRes ChessGame :=
  parse_pgn_game_headers uuid (collectHeaders pgn_text)

/-- The block-splitting step of `parse_pgn_file` (main.rs 162-166): split
the file body on `"[Event "`, drop the text before the first marker, and
re-prepend the marker to each block. -/
def blocksOf (content : List Char) : List (List Char) :=
  ((splitOnList "[Event ".data content).drop 1).map (fun s => "[Event ".data ++ s)

/-- `parse_pgn_file` (main.rs 159-173) given the file's text: apply
`parse_pgn_game` to every block (rayon preserves input order in
`par_iter().filter_map().collect()`), keep the successes. A panic in any
worker aborts the whole parallel collect, modelled by propagating the
first panicking block's message. `uuid i` is the UUID minted for block
`i`. -/
def parse_pgn_file (uuid : Nat → List Char) (content : List Char) :
    PResult (List ChessGame) :=
  let results := (blocksOf content).mapIdx (fun i b => parse_pgn_game (uuid i) b)
  match results.findSome?
      (fun r => match r with | .panicked m => some m | .ok _ => none) with
  | some m => .panicked m
  | none =>
    .ok (results.filterMap (fun r => match r with | .ok o => o | .panicked _ => none))

/-! ## The period pipeline (`process_year_month`, main.rs 300-343) and the
fetch step (`download_file`, main.rs 112-129)

The filesystem and network enter as explicit parameters: which artifacts
exist, whether the remote reports success, and the byte chunks of the
response stream. -/

inductive Step where
  | fetch
  | decompress
  | parse
  | emit
deriving DecidableEq, Repr

/-- The control flow of `process_year_month` (main.rs 308-339) as the
sequence of pipeline steps it executes, given whether the compressed
archive and the decompressed PGN already exist on disk (the two
`Path::new(..).exists()` guards at lines 308 and 316). Parse and the
chunked emit loop run unconditionally. -/
def process_year_month_steps (compressedExists pgnExists : Bool) : List Step :=
  (if !compressedExists then [Step.fetch] else []) ++
    (if !pgnExists then [Step.decompress] else []) ++
    [Step.parse, Step.emit]

/-- `download_file` (main.rs 112-129): check the response status, then
create the file at the final output path and append each streamed chunk
in turn. Returns `(succeeded, states)` where `states` lists the contents
of the file at the output path after creation and after each write —
there is no temporary-location-then-rename step in the source. On a
non-success status the function errors before creating the file. -/
def download_file (statusSuccess : Bool) (chunks : List (List Nat)) :
    Bool × List (List Nat) :=
  if statusSuccess then
    (true, (List.range (chunks.length + 1)).map (fun i => (chunks.take i).flatten))
  else
    (false, [])

/-- Fuel-driven worker for `chunksOf` (fuel `≥` input length suffices when
the chunk size is positive). -/
def chunksGo (C : Nat) : Nat → List α → List (List α)
  | _, [] => []
  | 0, l => [l]
  | fuel + 1, l => l.take C :: chunksGo C fuel (l.drop C)

/-- Model of Rust `slice::chunks(C)` (collected to a list): consecutive
chunks of size `C`, the last possibly shorter. -/
def chunksOf (C : Nat) (l : List α) : List (List α) := chunksGo C l.length l

/-- One chunk as handed to the output collaborator: the `parquet_path`
format string (main.rs 333-336) embeds the period (`year`, `month`) and
the running `file_counter`. -/
structure EmittedChunk where
  year : Int
  month : Int
  counter : Nat
  games : List ChessGame
deriving DecidableEq, Repr

/-- The emit loop of `process_year_month` (main.rs 329-339): chunk size
100000, `file_counter` incremented before each chunk is written, so chunk
`i` (0-based) is tagged with index `i + 1`, alongside the period. -/
def emit_chunks (year month : Int) (games : List ChessGame) : List EmittedChunk :=
  (chunksOf 100000 games).enum.map (fun p => ⟨year, month, p.1 + 1, p.2⟩)

/-! ## Concrete inputs -/

/-- The sample game block of the repository's own test
(main.rs 383-399). -/
def sampleBlock : List Char :=
  ("[Event \"Rated Bullet game\"]\n[Site \"https://lichess.org/QSgawA0K\"]\n" ++
   "[White \"ShahinMohammad\"]\n[Black \"Drummied\"]\n[Result \"0-1\"]\n" ++
   "[UTCDate \"2014.06.30\"]\n[UTCTime \"22:00:11\"]\n[WhiteElo \"1525\"]\n" ++
   "[BlackElo \"1458\"]\n[WhiteRatingDiff \"-14\"]\n[BlackRatingDiff \"+14\"]\n" ++
   "[ECO \"A00\"]\n[Opening \"Mieses Opening\"]\n[TimeControl \"60+0\"]\n" ++
   "[Termination \"Time forfeit\"]\n\n1. d3 d5 2. g3 e6 3. Bg2 Nf6").data

/-- The sample block with the Termination header replaced by a value no
accepted spelling matches. -/
def c2Block : List Char :=
  ("[Event \"Rated Bullet game\"]\n[Site \"https://lichess.org/QSgawA0K\"]\n" ++
   "[White \"ShahinMohammad\"]\n[Black \"Drummied\"]\n[Result \"0-1\"]\n" ++
   "[UTCDate \"2014.06.30\"]\n[UTCTime \"22:00:11\"]\n[WhiteElo \"1525\"]\n" ++
   "[BlackElo \"1458\"]\n[ECO \"A00\"]\n[Opening \"Mieses Opening\"]\n" ++
   "[TimeControl \"60+0\"]\n[Termination \"Unterminated\"]").data

/-- The sample block with a UTCDate that is neither the unknown sentinel
nor a parseable calendar date. -/
def c3Block : List Char :=
  ("[Event \"Rated Bullet game\"]\n[Site \"https://lichess.org/QSgawA0K\"]\n" ++
   "[White \"ShahinMohammad\"]\n[Black \"Drummied\"]\n[Result \"0-1\"]\n" ++
   "[UTCDate \"baddate\"]\n[UTCTime \"22:00:11\"]\n[WhiteElo \"1525\"]\n" ++
   "[BlackElo \"1458\"]\n[ECO \"A00\"]\n[Opening \"Mieses Opening\"]\n" ++
   "[TimeControl \"60+0\"]\n[Termination \"Time forfeit\"]").data

/-- A block whose WhiteElo header is absent (all other required tags
present and well-formed). -/
def missingTagBlock : List Char :=
  ("[Event \"Rated Blitz game\"]\n[Site \"https://lichess.org/abc\"]\n" ++
   "[White \"A\"]\n[Black \"B\"]\n[Result \"1-0\"]\n" ++
   "[UTCDate \"????.??.??\"]\n[UTCTime \"??:??:??\"]\n" ++
   "[BlackElo \"1000\"]\n[ECO \"B00\"]\n[Opening \"Kings Pawn\"]\n" ++
   "[TimeControl \"300+0\"]\n[Termination \"Normal\"]").data

/-- A block with every required tag present but a Termination value that
panics the enumeration extractor. -/
def badTermBlock : List Char :=
  ("[Event \"Rated Rapid game\"]\n[Site \"https://lichess.org/def\"]\n" ++
   "[White \"C\"]\n[Black \"D\"]\n[Result \"1/2-1/2\"]\n" ++
   "[UTCDate \"2015.01.02\"]\n[UTCTime \"03:04:05\"]\n[WhiteElo \"1800\"]\n" ++
   "[BlackElo \"1799\"]\n[ECO \"C00\"]\n[Opening \"French Defense\"]\n" ++
   "[TimeControl \"600+5\"]\n[Termination \"Abandoned\"]").data

/-- An archive holding a well-formed block, a block missing a required
tag, and a block whose Termination value panics. -/
def c7Archive : List Char :=
  sampleBlock ++ "\n\n".data ++ missingTagBlock ++ "\n\n".data ++ badTermBlock

/-- The sample block with ratings at the edge of the `i32` range. -/
def c9Block : List Char :=
  ("[Event \"Rated Bullet game\"]\n[Site \"https://lichess.org/QSgawA0K\"]\n" ++
   "[White \"ShahinMohammad\"]\n[Black \"Drummied\"]\n[Result \"0-1\"]\n" ++
   "[UTCDate \"2014.06.30\"]\n[UTCTime \"22:00:11\"]\n[WhiteElo \"-2147483648\"]\n" ++
   "[BlackElo \"0\"]\n[ECO \"A00\"]\n[Opening \"Mieses Opening\"]\n" ++
   "[TimeControl \"60+0\"]\n[Termination \"Time forfeit\"]").data

/-- The sample block with negative ratings. -/
def c10Block : List Char :=
  ("[Event \"Rated Bullet game\"]\n[Site \"https://lichess.org/QSgawA0K\"]\n" ++
   "[White \"ShahinMohammad\"]\n[Black \"Drummied\"]\n[Result \"0-1\"]\n" ++
   "[UTCDate \"2014.06.30\"]\n[UTCTime \"22:00:11\"]\n[WhiteElo \"-1\"]\n" ++
   "[BlackElo \"100\"]\n[ECO \"A00\"]\n[Opening \"Mieses Opening\"]\n" ++
   "[TimeControl \"60+0\"]\n[Termination \"Time forfeit\"]").data

/-- Project the record out of a builder result (`none` if the builder
returned no record or panicked). -/
def builtRecord : MRes ChessGame → Option ChessGame
  | .ok (some g) => some g
  | _ => none

/-- A placeholder record used only to instantiate list-level theorems at
concrete inputs. -/
def dummyGame : ChessGame :=
  { rated := true, url := [], game_type := .Bullet, time_control := ⟨1, 0⟩
    white_player_name := [], white_player_elo := 0
    black_player_name := [], black_player_elo := 0
    rating_diff := 0, winner := none, termination_type := .Normal
    date := none, time := none, opening_name := [], opening_eco := []
    game_id := [] }

/-! ## Helper lemmas -/

theorem MRes.bind_ok_some (a : α) (f : α → MRes β) :
    @Bind.bind MRes _ α β (PResult.ok (some a)) f = f a := rfl

theorem MRes.pure_def (a : α) : (pure a : MRes α) = PResult.ok (some a) := rfl

theorem liftOpt_some (a : α) : liftOpt (some a) = PResult.ok (some a) := rfl

theorem liftPan_ok (a : α) : liftPan (PResult.ok a) = PResult.ok (some a) := rfl

/-- Forward evaluation of the record builder: when every required header
is present and every fallible parse succeeds, the builder returns exactly
the record assembled at main.rs 85-103. -/
theorem parse_pgn_game_headers_eq
    (uuid : List Char) (hs : List (List Char × List Char))
    (ev site wname bname wes bes tcs res ds ts op eco term : List Char)
    (gt : GameType) (w b : Int) (tc : TimeControl) (tt : TerminationType)
    (hE : getHeader hs "Event".data = some ev)
    (hGT : extract_game_type_from_event_string ev = .ok gt)
    (hS : getHeader hs "Site".data = some site)
    (hW : getHeader hs "White".data = some wname)
    (hB : getHeader hs "Black".data = some bname)
    (hWE : getHeader hs "WhiteElo".data = some wes)
    (hWEp : parseI32 wes = some w)
    (hBE : getHeader hs "BlackElo".data = some bes)
    (hBEp : parseI32 bes = some b)
    (hTC : getHeader hs "TimeControl".data = some tcs)
    (hTCp : TimeControl.fromStr tcs = some tc)
    (hR : getHeader hs "Result".data = some res)
    (hD : getHeader hs "UTCDate".data = some ds)
    (hT : getHeader hs "UTCTime".data = some ts)
    (hO : getHeader hs "Opening".data = some op)
    (hEco : getHeader hs "ECO".data = some eco)
    (hTerm : getHeader hs "Termination".data = some term)
    (hTT : extract_termination_type term = .ok tt) :
    parse_pgn_game_headers uuid hs = .ok (some
      { rated := !(containsChars (toLowerChars ev) "unrated".data)
        url := site
        game_type := gt
        time_control := tc
        white_player_name := wname
        white_player_elo := u32ofI32 w
        black_player_name := bname
        black_player_elo := u32ofI32 b
        rating_diff := i32abs (i32sub w b)
        winner := extract_winner_from_result_string res
        termination_type := tt
        date := if ds == sentinelDate then none else parseDateYMD ds
        time := if ts == sentinelTime then none else parseTimeHMS ts
        opening_name := op
        opening_eco := eco
        game_id := uuid }) := by
  simp only [parse_pgn_game_headers, hE, hGT, hS, hW, hB, hWE, hWEp, hBE, hBEp,
    hTC, hTCp, hR, hD, hT, hO, hEco, hTerm, hTT, liftOpt_some, liftPan_ok,
    MRes.bind_ok_some, MRes.pure_def]

/-! ### Chunking lemmas -/

theorem chunksGo_congr (C : Nat) (hC : 0 < C) :
    ∀ (f₁ : Nat) (l : List α) (f₂ : Nat), l.length ≤ f₁ → l.length ≤ f₂ →
      chunksGo C f₁ l = chunksGo C f₂ l := by
  intro f₁
  induction f₁ with
  | zero =>
    intro l f₂ h₁ _
    have : l = [] := List.eq_nil_of_length_eq_zero (Nat.le_zero.mp h₁)
    subst this
    cases f₂ <;> rfl
  | succ f ih =>
    intro l f₂ h₁ h₂
    cases l with
    | nil => cases f₂ <;> rfl
    | cons x xs =>
      cases f₂ with
      | zero => exact absurd h₂ (by simp)
      | succ f' =>
        simp only [chunksGo]
        congr 1
        apply ih
        · simp only [List.length_drop, List.length_cons] at h₁ ⊢
          omega
        · simp only [List.length_drop, List.length_cons] at h₂ ⊢
          omega

theorem chunksOf_cons (C : Nat) (hC : 0 < C) (l : List α) (hl : l ≠ []) :
    chunksOf C l = l.take C :: chunksOf C (l.drop C) := by
  cases l with
  | nil => exact absurd rfl hl
  | cons x xs =>
    show chunksGo C (xs.length + 1) (x :: xs) = _
    simp only [chunksGo]
    congr 1
    apply chunksGo_congr C hC
    · simp
      omega
    · simp

theorem chunksOf_ne_nil (C : Nat) (hC : 0 < C) (l : List α) (hl : l ≠ []) :
    chunksOf C l ≠ [] := by
  rw [chunksOf_cons C hC l hl]
  simp

theorem chunksOf_flatten (C : Nat) (hC : 0 < C) (l : List α) :
    (chunksOf C l).flatten = l := by
  generalize hn : l.length = n
  induction n using Nat.strong_induction_on generalizing l with
  | _ n ih =>
    cases l with
    | nil => rfl
    | cons x xs =>
      rw [chunksOf_cons C hC _ (by simp)]
      rw [List.flatten_cons]
      rw [ih ((x :: xs).drop C).length (by simp only [List.length_drop, List.length_cons] at hn ⊢; omega) _ rfl]
      exact List.take_append_drop C (x :: xs)

theorem chunksOf_length (C : Nat) (hC : 0 < C) (l : List α) :
    (chunksOf C l).length = (l.length + C - 1) / C := by
  generalize hn : l.length = n
  induction n using Nat.strong_induction_on generalizing l with
  | _ n ih =>
    cases l with
    | nil =>
      simp only [← hn, List.length_nil]
      show (0 : Nat) = (0 + C - 1) / C
      rw [Nat.zero_add, Nat.div_eq_of_lt (by omega)]
    | cons x xs =>
      rw [chunksOf_cons C hC _ (by simp)]
      rw [List.length_cons]
      rw [ih ((x :: xs).drop C).length (by simp only [List.length_drop, List.length_cons] at hn ⊢; omega) _ rfl]
      simp only [List.length_drop, ← hn, List.length_cons]
      rcases le_or_lt C (xs.length + 1) with h | h
      · have h1 : xs.length + 1 - C + C - 1 = xs.length := by omega
        have h2 : xs.length + 1 + C - 1 = xs.length + C := by omega
        rw [h1, h2, Nat.add_div_right _ hC]
      · have h1 : xs.length + 1 - C = 0 := by omega
        have h2 : xs.length + 1 + C - 1 = xs.length + C := by omega
        rw [h1, h2, Nat.add_div_right _ hC]
        rw [Nat.zero_add, Nat.div_eq_of_lt (by omega), Nat.div_eq_of_lt (by omega)]

theorem chunksOf_dropLast_length (C : Nat) (hC : 0 < C) (l : List α) :
    ∀ c ∈ (chunksOf C l).dropLast, c.length = C := by
  generalize hn : l.length = n
  induction n using Nat.strong_induction_on generalizing l with
  | _ n ih =>
    cases l with
    | nil => intro c hc; simp [chunksOf, chunksGo] at hc
    | cons x xs =>
      rw [chunksOf_cons C hC _ (by simp)]
      by_cases hd : (x :: xs).drop C = []
      · rw [hd]
        intro c hc
        simp [chunksOf, chunksGo] at hc
      · have hne := chunksOf_ne_nil C hC _ hd
        obtain ⟨y, ys, hys⟩ := List.exists_cons_of_ne_nil hne
        rw [hys, List.dropLast_cons₂]
        intro c hc
        rcases List.mem_cons.mp hc with rfl | hc
        · rw [List.length_take]
          have : C < (x :: xs).length := by
            by_contra hcon
            exact hd (List.drop_eq_nil_of_le (by omega))
          omega
        · rw [← hys] at hc
          exact ih ((x :: xs).drop C).length (by simp only [List.length_drop, List.length_cons] at hn ⊢; omega) _ rfl c hc

theorem chunksOf_getLast_length (C : Nat) (hC : 0 < C) (l : List α) (hl : l ≠ []) :
    ∀ c, (chunksOf C l).getLast? = some c →
      c.length = (if l.length % C = 0 then C else l.length % C) := by
  generalize hn : l.length = n
  induction n using Nat.strong_induction_on generalizing l with
  | _ n ih =>
    cases l with
    | nil => exact absurd rfl hl
    | cons x xs =>
      rw [chunksOf_cons C hC _ (by simp)]
      by_cases hd : (x :: xs).drop C = []
      · have hlen : (x :: xs).length ≤ C := by
          by_contra hcon
          rw [List.drop_eq_nil_iff] at hd
          omega
        rw [hd]
        intro c hc
        simp only [chunksOf, chunksGo, List.getLast?_singleton, Option.some.injEq] at hc
        subst hc
        rw [List.length_take, ← hn]
        rcases Nat.lt_or_ge (x :: xs).length C with h | h
        · rw [if_neg, Nat.min_eq_right (Nat.le_of_lt h), Nat.mod_eq_of_lt h]
          rw [Nat.mod_eq_of_lt h]
          simp
        · have : (x :: xs).length = C := Nat.le_antisymm hlen h
          rw [this, Nat.min_self, Nat.mod_self, if_pos rfl]
      · have hne := chunksOf_ne_nil C hC _ hd
        obtain ⟨y, ys, hys⟩ := List.exists_cons_of_ne_nil hne
        rw [hys, List.getLast?_cons_cons, ← hys]
        intro c hc
        have hCle : C ≤ (x :: xs).length := by
          by_contra hcon
          exact hd (List.drop_eq_nil_of_le (by omega))
        have := ih ((x :: xs).drop C).length (by simp only [List.length_drop, List.length_cons] at hn ⊢; omega) _ hd rfl c hc
        rw [List.length_drop] at this
        rw [← hn]
        rwa [← Nat.mod_eq_sub_mod hCle] at this

/-! ### Decimal-numeral lemmas -/

theorem digitChar_toNat (d : Nat) (h : d < 10) : (digitChar d).toNat = 48 + d := by
  interval_cases d <;> rfl

theorem digitChar_isDigit (d : Nat) (h : d < 10) : (digitChar d).isDigit = true := by
  interval_cases d <;> rfl

theorem natDigitsGo_congr :
    ∀ (f₁ : Nat) (n : Nat) (f₂ : Nat) (acc : List Char), n < f₁ → n < f₂ →
      natDigitsGo f₁ n acc = natDigitsGo f₂ n acc := by
  intro f₁
  induction f₁ with
  | zero => intro n f₂ acc h₁ _; omega
  | succ f ih =>
    intro n f₂ acc h₁ h₂
    cases f₂ with
    | zero => omega
    | succ f' =>
      simp only [natDigitsGo]
      by_cases h : n < 10
      · simp [h]
      · simp only [if_neg h]
        exact ih (n / 10) f' _ (by omega) (by omega)

theorem natDigitsGo_append :
    ∀ (fuel n : Nat) (acc : List Char), n < fuel →
      natDigitsGo fuel n acc = natDigitsGo fuel n [] ++ acc := by
  intro fuel
  induction fuel with
  | zero => intro n acc h; omega
  | succ f ih =>
    intro n acc h
    simp only [natDigitsGo]
    by_cases h10 : n < 10
    · simp [h10]
    · simp only [if_neg h10]
      rw [ih (n / 10) _ (by omega), ih (n / 10) [digitChar (n % 10)] (by omega)]
      simp

theorem natRepr_lt_ten (n : Nat) (h : n < 10) : natRepr n = [digitChar n] := by
  simp [natRepr, natDigitsGo, h]

theorem natRepr_ge_ten (n : Nat) (h : 10 ≤ n) :
    natRepr n = natRepr (n / 10) ++ [digitChar (n % 10)] := by
  show natDigitsGo (n + 1) n [] = _
  simp only [natDigitsGo, if_neg (by omega : ¬n < 10)]
  rw [natDigitsGo_congr n (n / 10) (n / 10 + 1) _ (by omega) (by omega)]
  exact natDigitsGo_append (n / 10 + 1) (n / 10) _ (by omega)

theorem natRepr_all_digits (n : Nat) : ∀ c ∈ natRepr n, c.isDigit = true := by
  induction n using Nat.strong_induction_on with
  | _ n ih =>
    by_cases h : n < 10
    · rw [natRepr_lt_ten n h]
      intro c hc
      rw [List.mem_singleton] at hc
      subst hc
      exact digitChar_isDigit n h
    · rw [natRepr_ge_ten n (by omega)]
      intro c hc
      rcases List.mem_append.mp hc with hc | hc
      · exact ih (n / 10) (by omega) c hc
      · rw [List.mem_singleton] at hc
        subst hc
        exact digitChar_isDigit _ (by omega)

theorem natRepr_ne_nil (n : Nat) : natRepr n ≠ [] := by
  by_cases h : n < 10
  · rw [natRepr_lt_ten n h]; simp
  · rw [natRepr_ge_ten n (by omega)]; simp

theorem digitsVal_append_singleton (a : List Char) (c : Char) :
    digitsVal (a ++ [c]) = digitsVal a * 10 + (c.toNat - 48) := by
  simp [digitsVal, List.foldl_append]

theorem digitsVal_natRepr (n : Nat) : digitsVal (natRepr n) = n := by
  induction n using Nat.strong_induction_on with
  | _ n ih =>
    by_cases h : n < 10
    · rw [natRepr_lt_ten n h]
      simp [digitsVal, digitChar_toNat n h]
    · rw [natRepr_ge_ten n (by omega), digitsVal_append_singleton,
        ih (n / 10) (by omega), digitChar_toNat _ (by omega)]
      omega

theorem digitsToNat_natRepr (n : Nat) : digitsToNat (natRepr n) = some n := by
  have h1 : (natRepr n).isEmpty = false := by
    cases hr : natRepr n with
    | nil => exact absurd hr (natRepr_ne_nil n)
    | cons c cs => rfl
  have h2 : (natRepr n).all Char.isDigit = true :=
    List.all_eq_true.mpr (natRepr_all_digits n)
  rw [digitsToNat, h1, if_neg (by simp), h2, if_pos rfl, digitsVal_natRepr]

theorem natRepr_head_not_plus (c : Char) (cs : List Char) (n : Nat)
    (h : natRepr n = c :: cs) : c ≠ '+' := by
  intro hc
  subst hc
  have := natRepr_all_digits n '+' (by rw [h]; exact List.mem_cons_self _ _)
  simp [Char.isDigit] at this

theorem parseNatBody_not_plus (c : Char) (cs : List Char) (h : c ≠ '+') :
    parseNatBody (c :: cs) = digitsToNat (c :: cs) := by
  rw [parseNatBody, if_neg (by simpa using h)]

theorem parseU32_natRepr (n : Nat) (h : n < 2 ^ 32) : parseU32 (natRepr n) = some n := by
  cases hr : natRepr n with
  | nil => exact absurd hr (natRepr_ne_nil n)
  | cons c cs =>
    have hne := natRepr_head_not_plus c cs n hr
    rw [parseU32, parseNatBody_not_plus c cs hne, ← hr, digitsToNat_natRepr]
    simp only [Option.some_bind, if_pos (by omega : n < 2 ^ 32)]

/-! ### Character-split lemmas -/

theorem splitOnChar_ne_nil (c : Char) : ∀ l : List Char, splitOnChar c l ≠ [] := by
  intro l
  induction l with
  | nil => simp [splitOnChar]
  | cons x xs ih =>
    rw [splitOnChar]
    by_cases h : (x == c) = true
    · rw [if_pos h]
      simp
    · rw [if_neg h]
      cases hs : splitOnChar c xs with
      | nil => exact absurd hs ih
      | cons y ys => simp

theorem splitOnChar_no_occ (c : Char) (l : List Char) (h : ∀ x ∈ l, x ≠ c) :
    splitOnChar c l = [l] := by
  induction l with
  | nil => rfl
  | cons x xs ih =>
    have hx : ¬(x == c) = true := by
      simp only [beq_iff_eq]
      exact h x (List.mem_cons_self _ _)
    rw [splitOnChar, if_neg hx, ih (fun y hy => h y (List.mem_cons_of_mem _ hy))]

theorem splitOnChar_append (c : Char) (a b : List Char) (h : ∀ x ∈ a, x ≠ c) :
    splitOnChar c (a ++ b) =
      (a ++ (splitOnChar c b).headI) :: (splitOnChar c b).tail := by
  induction a with
  | nil =>
    obtain ⟨y, ys, hy⟩ := List.exists_cons_of_ne_nil (splitOnChar_ne_nil c b)
    simp [hy]
  | cons x a' ih =>
    have hx : ¬(x == c) = true := by
      simp only [beq_iff_eq]
      exact h x (List.mem_cons_self _ _)
    rw [List.cons_append, splitOnChar, if_neg hx,
      ih (fun y hy => h y (List.mem_cons_of_mem _ hy))]
    simp

theorem natRepr_not_plus_mem (n : Nat) : ∀ x ∈ natRepr n, x ≠ '+' := by
  intro x hx h
  subst h
  have := natRepr_all_digits n '+' hx
  simp [Char.isDigit] at this

/-- The TimeControl display/parse round-trip at the list-of-parts level. -/
theorem splitOnChar_fmt (m i : Nat) :
    splitOnChar '+' (TimeControl.fmt ⟨m, i⟩) = [natRepr m, natRepr i] := by
  show splitOnChar '+' (natRepr m ++ '+' :: natRepr i) = _
  rw [splitOnChar_append '+' _ _ (natRepr_not_plus_mem m)]
  have h1 : splitOnChar '+' ('+' :: natRepr i) = [] :: splitOnChar '+' (natRepr i) := by
    rw [splitOnChar]
    simp
  rw [h1, splitOnChar_no_occ '+' _ (natRepr_not_plus_mem i)]
  simp

/-! ### Split/parse inversion lemmas (what a successful TimeControl parse
forces about the input string) -/

theorem splitOnChar_eq_single_inv (c : Char) :
    ∀ (xs b : List Char), splitOnChar c xs = [b] → xs = b ∧ ∀ x ∈ b, x ≠ c := by
  intro xs
  induction xs with
  | nil =>
    intro b h
    simp only [splitOnChar, List.cons.injEq] at h
    exact ⟨h.1, by simp [← h.1]⟩
  | cons y ys ih =>
    intro b h
    rw [splitOnChar] at h
    by_cases hy : (y == c) = true
    · rw [if_pos hy] at h
      rw [List.cons.injEq] at h
      exact absurd h.2 (splitOnChar_ne_nil c ys)
    · rw [if_neg hy] at h
      cases hr : splitOnChar c ys with
      | nil => exact absurd hr (splitOnChar_ne_nil c ys)
      | cons l ls =>
        rw [hr, List.cons.injEq] at h
        obtain ⟨hb, hls⟩ := h
        subst hls
        obtain ⟨hys, hl⟩ := ih l hr
        subst hys
        refine ⟨hb, ?_⟩
        intro x hx
        rw [← hb] at hx
        rcases List.mem_cons.mp hx with rfl | hx
        · simpa using hy
        · exact hl x hx

theorem splitOnChar_eq_pair_inv (c : Char) :
    ∀ (s a b : List Char), splitOnChar c s = [a, b] →
      s = a ++ c :: b ∧ (∀ x ∈ a, x ≠ c) ∧ (∀ x ∈ b, x ≠ c) := by
  intro s
  induction s with
  | nil =>
    intro a b h
    simp [splitOnChar] at h
  | cons x xs ih =>
    intro a b h
    rw [splitOnChar] at h
    by_cases hx : (x == c) = true
    · rw [if_pos hx] at h
      rw [List.cons.injEq] at h
      obtain ⟨ha, hrest⟩ := h
      obtain ⟨hxs, hb⟩ := splitOnChar_eq_single_inv c xs b hrest
      subst hxs
      have hxc : x = c := by simpa using hx
      subst hxc
      exact ⟨by rw [← ha]; rfl, by simp [← ha], hb⟩
    · rw [if_neg hx] at h
      cases hr : splitOnChar c xs with
      | nil => exact absurd hr (splitOnChar_ne_nil c xs)
      | cons l ls =>
        rw [hr, List.cons.injEq] at h
        obtain ⟨ha, hls⟩ := h
        have hxsplit : splitOnChar c xs = [l, b] := by rw [hr, hls]
        obtain ⟨hxs, hl, hb⟩ := ih l b hxsplit
        subst hxs
        refine ⟨by rw [← ha]; rfl, ?_, hb⟩
        intro z hz
        rw [← ha] at hz
        rcases List.mem_cons.mp hz with rfl | hz
        · simpa using hx
        · exact hl z hz

theorem parseNatBody_plusfree (a : List Char) (h : ∀ x ∈ a, x ≠ '+') :
    parseNatBody a = digitsToNat a := by
  cases a with
  | nil => rfl
  | cons c r => exact parseNatBody_not_plus c r (h c (List.mem_cons_self _ _))

theorem digitsToNat_inv (a : List Char) (v : Nat) (h : digitsToNat a = some v) :
    a ≠ [] ∧ a.all Char.isDigit = true ∧ digitsVal a = v := by
  rw [digitsToNat] at h
  by_cases he : a.isEmpty = true
  · rw [if_pos he] at h
    exact absurd h (by simp)
  · rw [if_neg he] at h
    by_cases hall : a.all Char.isDigit = true
    · rw [if_pos hall, Option.some.injEq] at h
      exact ⟨by simpa using he, hall, h⟩
    · rw [if_neg hall] at h
      exact absurd h (by simp)

theorem parseU32_inv_plusfree (a : List Char) (n : Nat)
    (hfree : ∀ x ∈ a, x ≠ '+') (h : parseU32 a = some n) :
    a ≠ [] ∧ a.all Char.isDigit = true ∧ digitsVal a = n ∧ n < 2 ^ 32 := by
  rw [parseU32, parseNatBody_plusfree a hfree] at h
  rcases Option.bind_eq_some.mp h with ⟨w, hw, hv⟩
  by_cases hb : w < 2 ^ 32
  · rw [if_pos hb, Option.some.injEq] at hv
    subst hv
    obtain ⟨h1, h2, h3⟩ := digitsToNat_inv a w hw
    exact ⟨h1, h2, h3, hb⟩
  · rw [if_neg hb] at hv
    exact absurd hv (by simp)

/-- A successful `TimeControl::from_str` forces the input to be a nonempty
digit string, a `+`, and a nonempty digit string, with both values below
`2^32` — i.e. exactly the `"<integer>+<integer>"` shape. -/
theorem timeControl_fromStr_shape (s : List Char) (tc : TimeControl)
    (h : TimeControl.fromStr s = some tc) :
    ∃ a b : List Char, s = a ++ '+' :: b ∧
      a ≠ [] ∧ a.all Char.isDigit = true ∧ digitsVal a = tc.minutes ∧
        tc.minutes < 2 ^ 32 ∧
      b ≠ [] ∧ b.all Char.isDigit = true ∧ digitsVal b = tc.increment ∧
        tc.increment < 2 ^ 32 := by
  rw [TimeControl.fromStr] at h
  rcases hsp : splitOnChar '+' s with _ | ⟨a, _ | ⟨b, _ | ⟨c0, rest⟩⟩⟩ <;> rw [hsp] at h
  · exact absurd h (by simp)
  · exact absurd h (by simp)
  · obtain ⟨hs, hfa, hfb⟩ := splitOnChar_eq_pair_inv '+' s a b hsp
    have h1 : (match parseU32 a, parseU32 b with
        | some m, some i => some (⟨m, i⟩ : TimeControl)
        | _, _ => none) = some tc := h
    cases hpa : parseU32 a with
    | none =>
      rw [hpa] at h1
      exact absurd h1 (by simp)
    | some m =>
      cases hpb : parseU32 b with
      | none =>
        rw [hpa, hpb] at h1
        exact absurd h1 (by simp)
      | some i =>
        rw [hpa, hpb] at h1
        have h2 : some (⟨m, i⟩ : TimeControl) = some tc := h1
        rw [Option.some.injEq] at h2
        subst h2
        obtain ⟨ha1, ha2, ha3, ha4⟩ := parseU32_inv_plusfree a m hfa hpa
        obtain ⟨hb1, hb2, hb3, hb4⟩ := parseU32_inv_plusfree b i hfb hpb
        exact ⟨a, b, hs, ha1, ha2, ha3, ha4, hb1, hb2, hb3, hb4⟩
  · exact absurd h (by simp)

/-! ### 32-bit arithmetic lemmas -/

theorem parseI32_range (cs : List Char) (v : Int) (h : parseI32 cs = some v) :
    -(2 ^ 31) ≤ v ∧ v ≤ 2 ^ 31 - 1 := by
  rw [parseI32] at h
  rcases Option.bind_eq_some.mp h with ⟨w, _, hw⟩
  by_cases hc : -(2 ^ 31) ≤ w ∧ w ≤ 2 ^ 31 - 1
  · rw [if_pos hc, Option.some.injEq] at hw
    subst hw
    exact hc
  · rw [if_neg hc] at hw
    exact absurd hw (by simp)

theorem i32abs_i32sub_of_small (w b : Int)
    (habs : (w - b).natAbs ≤ 2 ^ 31 - 1) :
    i32abs (i32sub w b) = ((w - b).natAbs : Int) := by
  rw [i32sub, i32abs, wrap32, wrap32]
  split <;> omega

/-! ## Claim theorems -/

/-- C1: the spec claims speed-class derivation checks bullet → blitz →
rapid → classical case-insensitively (first match wins) and that an
unmatched event yields an `Unknown` variant carrying the text, never
failing. The priority order and case-insensitivity hold, but `GameType`
has no Unknown variant: on an unmatched event the code builds the string
`"Unknown (<event>)"`, `GameType::from_str` rejects it, and
`.expect("Invalid game type")` panics. -/
theorem c1_speed_class_derivation :
    extract_game_type_from_event_string "a bullet game".data = .ok .Bullet ∧
    extract_game_type_from_event_string "Classical GAME".data = .ok .Classical ∧
    extract_game_type_from_event_string "rapid blitz".data = .ok .Blitz ∧
    extract_game_type_from_event_string "xyz".data = .panicked "Invalid game type" := by
  refine ⟨by decide, by decide, by decide, by decide⟩

/-- C2: the spec claims a Termination value that fails enumeration parsing
makes the builder return no record without a fatal error. In the code,
`extract_termination_type` hits `panic!("Invalid termination type")`
instead, so the whole block parse aborts rather than returning `None`. -/
theorem c2_bad_termination_panics :
    extract_termination_type "Unterminated".data = .panicked "Invalid termination type" ∧
    parse_pgn_game "id".data c2Block = .panicked "Invalid termination type" := by
  refine ⟨by decide, by decide⟩

/-- C4 counterexample: with the decompressed PGN present but the
compressed archive absent, the pipeline still performs a fetch, so
"decompressed artifact exists implies no fetch" is false. -/
theorem c4_counterexample :
    Step.fetch ∈ process_year_month_steps false true ∧
    process_year_month_steps false true = [Step.fetch, Step.parse, Step.emit] := by
  refine ⟨by decide, by decide⟩

/-- C4 (amended): fetch is skipped exactly when the compressed archive
exists and decompress exactly when the decompressed PGN exists; re-running
with both artifacts present performs only parse and emit. -/
theorem c4_idempotent_skips :
    ∀ compressedExists pgnExists : Bool,
      (compressedExists = true → pgnExists = true →
        process_year_month_steps compressedExists pgnExists = [Step.parse, Step.emit]) ∧
      (Step.fetch ∈ process_year_month_steps compressedExists pgnExists ↔
        compressedExists = false) ∧
      (Step.decompress ∈ process_year_month_steps compressedExists pgnExists ↔
        pgnExists = false) ∧
      Step.parse ∈ process_year_month_steps compressedExists pgnExists ∧
      Step.emit ∈ process_year_month_steps compressedExists pgnExists := by
  decide

/-- C4 witness: with both artifacts on disk only parse and emit run. -/
theorem c4_idempotent_skips_witness :
    process_year_month_steps true true = [Step.parse, Step.emit] :=
  (c4_idempotent_skips true true).1 rfl rfl

/-- C5 counterexample: streaming two chunks leaves the final output path
holding the partial nonempty file `[1]` before the download completes, so
the fetch is not atomic. -/
theorem c5_counterexample :
    (download_file true [[1], [2]]).2 = [[], [1], [1, 2]] ∧
    [1] ∈ (download_file true [[1], [2]]).2 ∧
    ([1] : List Nat) ≠ ([[1], [2]] : List (List Nat)).flatten ∧
    ([1] : List Nat) ≠ [] := by
  refine ⟨by decide, by decide, by decide, by decide⟩

/-- C5 (amended): `download_file` fails exactly when the remote reports a
non-success status; on success it writes the streamed chunks directly to
the final path, so the path passes through every prefix of the content
(including partial ones) and ends holding the complete content. -/
theorem c5_download_stream (ok : Bool) (chunks : List (List Nat)) :
    ((download_file ok chunks).1 = false ↔ ok = false) ∧
    (∀ s ∈ (download_file ok chunks).2, s <+: chunks.flatten) ∧
    (ok = true → chunks.flatten ∈ (download_file ok chunks).2) := by
  cases ok with
  | false =>
    refine ⟨by simp [download_file], ?_, ?_⟩
    · intro s hs
      simp [download_file] at hs
    · intro h
      exact absurd h (by simp)
  | true =>
    have hd : (download_file true chunks).2 =
        (List.range (chunks.length + 1)).map (fun i => (chunks.take i).flatten) := by
      simp [download_file]
    refine ⟨by simp [download_file], ?_, ?_⟩
    · intro s hs
      rw [hd, List.mem_map] at hs
      obtain ⟨i, _, rfl⟩ := hs
      exact ⟨(chunks.drop i).flatten, by rw [← List.flatten_append, List.take_append_drop]⟩
    · intro _
      rw [hd, List.mem_map]
      exact ⟨chunks.length, by simp, by rw [List.take_length]⟩

/-- C5 witness: a failed status yields an error, and a successful
two-chunk download eventually writes the complete file. -/
theorem c5_download_stream_witness :
    (download_file false ([] : List (List Nat))).1 = false ∧
    ([1, 2] : List Nat) ∈ (download_file true [[1], [2]]).2 := by
  constructor
  · exact (c5_download_stream false []).1.mpr rfl
  · have h := (c5_download_stream true [[1], [2]]).2.2 rfl
    simpa using h

/-- C7: the spec claims a block missing a required tag yields no record
while the batch parser still yields records for all other well-formed
blocks and never fails as a whole because of bad blocks. A missing-tag
block indeed yields `None`, but a block whose Termination value fails
enumeration parsing panics inside the rayon worker and aborts the whole
batch, so the archive below yields nothing at all. -/
theorem c7_batch_aborts_on_panic :
    (blocksOf c7Archive).length = 3 ∧
    parse_pgn_game "id".data missingTagBlock = .ok none ∧
    (builtRecord (parse_pgn_game "id".data sampleBlock)).isSome = true ∧
    parse_pgn_file (fun _ => "id".data) c7Archive = .panicked "Invalid termination type" := by
  refine ⟨by decide, by decide, by decide, by decide⟩

/-- C6: the emit step partitions the parsed records into exactly
`ceil(N/C)` chunks (`C = 100000`) in order, every chunk but possibly the
last of size exactly `C`, the last of size `N mod C` when nonzero, each
chunk tagged with the period and a sequential 1-based index, and no record
dropped (the chunks flatten back to the input). -/
theorem c6_emit_chunking (year month : Int) (games : List ChessGame) :
    (emit_chunks year month games).map EmittedChunk.games = chunksOf 100000 games ∧
    (emit_chunks year month games).map EmittedChunk.counter =
      List.range' 1 (chunksOf 100000 games).length ∧
    (∀ e ∈ emit_chunks year month games, e.year = year ∧ e.month = month) ∧
    (chunksOf 100000 games).length = (games.length + 100000 - 1) / 100000 ∧
    (∀ c ∈ (chunksOf 100000 games).dropLast, c.length = 100000) ∧
    (games.length % 100000 ≠ 0 → ∀ c, (chunksOf 100000 games).getLast? = some c →
      c.length = games.length % 100000) ∧
    (chunksOf 100000 games).flatten = games := by
  refine ⟨?_, ?_, ?_, ?_, ?_, ?_, ?_⟩
  · rw [emit_chunks, List.map_map]
    exact List.enum_map_snd _
  · rw [emit_chunks, List.map_map]
    have h1 : (EmittedChunk.counter ∘ fun p : Nat × List ChessGame =>
        (⟨year, month, p.1 + 1, p.2⟩ : EmittedChunk)) =
        (fun n => n + 1) ∘ Prod.fst := rfl
    rw [h1, ← List.map_map, List.enum_map_fst, List.range'_eq_map_range]
    exact List.map_congr_left (fun x _ => Nat.add_comm x 1)
  · intro e he
    rw [emit_chunks, List.mem_map] at he
    obtain ⟨p, _, rfl⟩ := he
    exact ⟨rfl, rfl⟩
  · exact chunksOf_length 100000 (by norm_num) games
  · exact chunksOf_dropLast_length 100000 (by norm_num) games
  · intro h0 c hc
    have hne : games ≠ [] := by
      intro h
      subst h
      simp at h0
    have := chunksOf_getLast_length 100000 (by norm_num) games hne c hc
    rwa [if_neg h0] at this
  · exact chunksOf_flatten 100000 (by norm_num) games

/-- C6 witness: on a three-record input a single chunk is emitted, with
counter 1, and its last (only) chunk has size `3 = 3 mod 100000`. -/
theorem c6_emit_chunking_witness :
    ([dummyGame, dummyGame, dummyGame] : List ChessGame).length % 100000 ≠ 0 ∧
    (emit_chunks 2014 6 [dummyGame, dummyGame, dummyGame]).map EmittedChunk.counter = [1] ∧
    ([dummyGame, dummyGame, dummyGame] : List ChessGame).length =
      ([dummyGame, dummyGame, dummyGame] : List ChessGame).length % 100000 := by
  have h := c6_emit_chunking 2014 6 [dummyGame, dummyGame, dummyGame]
  refine ⟨by decide, ?_, ?_⟩
  · rw [h.2.1]
    rfl
  · exact h.2.2.2.2.2.1 (by decide) [dummyGame, dummyGame, dummyGame] rfl

/-- C8: formatting a TimeControl `(m, i)` produces `"<m>+<i>"` and parsing
that string returns `(m, i)`; parsing any string NOT of the shape
`<integer>+<integer>` — that is, any string that is not a nonempty digit
run, a `+`, and a nonempty digit run — fails (so in particular
`"5+invalid"` and `"invalid"` fail), while `"5+5"` parses to `(5, 5)`. -/
theorem c8_time_control_roundtrip (m i : Nat) (hm : m < 2 ^ 32) (hi : i < 2 ^ 32) :
    (TimeControl.fmt ⟨m, i⟩ = natRepr m ++ '+' :: natRepr i ∧
      TimeControl.fromStr (TimeControl.fmt ⟨m, i⟩) = some ⟨m, i⟩) ∧
    (∀ s : List Char,
      (¬ ∃ a b : List Char, s = a ++ '+' :: b ∧
        a ≠ [] ∧ a.all Char.isDigit = true ∧
        b ≠ [] ∧ b.all Char.isDigit = true) →
      TimeControl.fromStr s = none) ∧
    TimeControl.fromStr "5+invalid".data = none ∧
    TimeControl.fromStr "invalid".data = none ∧
    TimeControl.fromStr "5+5".data = some ⟨5, 5⟩ := by
  refine ⟨⟨rfl, ?_⟩, ?_, by decide, by decide, by decide⟩
  · rw [TimeControl.fromStr, splitOnChar_fmt]
    simp only [parseU32_natRepr m hm, parseU32_natRepr i hi]
  · intro s hno
    cases hf : TimeControl.fromStr s with
    | none => rfl
    | some tc =>
      obtain ⟨a, b, hs, ha1, ha2, _, _, hb1, hb2, _, _⟩ :=
        timeControl_fromStr_shape s tc hf
      exact absurd ⟨a, b, hs, ha1, ha2, hb1, hb2⟩ hno

/-- C8 witness: the round-trip at `(5, 5)`, and the universal failure half
applied at the shapeless string `"invalid"`. -/
theorem c8_time_control_roundtrip_witness :
    TimeControl.fromStr (TimeControl.fmt ⟨5, 5⟩) = some ⟨5, 5⟩ ∧
    TimeControl.fromStr "invalid".data = none := by
  have h := c8_time_control_roundtrip 5 5 (by norm_num) (by norm_num)
  refine ⟨h.1.2, ?_⟩
  apply h.2.1 "invalid".data
  rintro ⟨a, b, hs, -, -, -, -⟩
  have hmem : '+' ∈ "invalid".data := by
    rw [hs]
    exact List.mem_append.mpr (Or.inr (List.mem_cons_self _ _))
  revert hmem
  decide

/-- C3 counterexample: a block whose UTCDate is `"baddate"` — not the
sentinel, and unparseable — is NOT rejected: the builder still produces a
record, with the date field `None`. -/
theorem c3_counterexample :
    getHeader (collectHeaders c3Block) "UTCDate".data = some "baddate".data ∧
    "baddate".data ≠ sentinelDate ∧
    parseDateYMD "baddate".data = none ∧
    (builtRecord (parse_pgn_game "id".data c3Block)).isSome = true ∧
    (builtRecord (parse_pgn_game "id".data c3Block)).map ChessGame.date = some none := by
  refine ⟨by decide, by decide, by decide, by decide, by decide⟩

/-- C3 (amended): on a block whose required headers all resolve, the
record's date (time) field is `None` exactly when the UTCDate (UTCTime)
header equals its unknown-sentinel or is a non-sentinel value that fails
to parse; a non-sentinel parse failure does not reject the block. -/
theorem c3_date_time_policy
    (uuid : List Char) (hs : List (List Char × List Char))
    (ev site wname bname wes bes tcs res ds ts op eco term : List Char)
    (gt : GameType) (w b : Int) (tc : TimeControl) (tt : TerminationType)
    (hE : getHeader hs "Event".data = some ev)
    (hGT : extract_game_type_from_event_string ev = .ok gt)
    (hS : getHeader hs "Site".data = some site)
    (hW : getHeader hs "White".data = some wname)
    (hB : getHeader hs "Black".data = some bname)
    (hWE : getHeader hs "WhiteElo".data = some wes)
    (hWEp : parseI32 wes = some w)
    (hBE : getHeader hs "BlackElo".data = some bes)
    (hBEp : parseI32 bes = some b)
    (hTC : getHeader hs "TimeControl".data = some tcs)
    (hTCp : TimeControl.fromStr tcs = some tc)
    (hR : getHeader hs "Result".data = some res)
    (hD : getHeader hs "UTCDate".data = some ds)
    (hT : getHeader hs "UTCTime".data = some ts)
    (hO : getHeader hs "Opening".data = some op)
    (hEco : getHeader hs "ECO".data = some eco)
    (hTerm : getHeader hs "Termination".data = some term)
    (hTT : extract_termination_type term = .ok tt) :
    ∃ g, parse_pgn_game_headers uuid hs = .ok (some g) ∧
      (g.date = none ↔ (ds = sentinelDate ∨ parseDateYMD ds = none)) ∧
      (g.time = none ↔ (ts = sentinelTime ∨ parseTimeHMS ts = none)) ∧
      (ds ≠ sentinelDate → g.date = parseDateYMD ds) ∧
      (ts ≠ sentinelTime → g.time = parseTimeHMS ts) := by
  refine ⟨_, parse_pgn_game_headers_eq uuid hs ev site wname bname wes bes tcs res
    ds ts op eco term gt w b tc tt hE hGT hS hW hB hWE hWEp hBE hBEp hTC hTCp hR
    hD hT hO hEco hTerm hTT, ?_, ?_, ?_, ?_⟩
  · show (if ds == sentinelDate then none else parseDateYMD ds) = none ↔ _
    by_cases h : ds = sentinelDate
    · simp [h]
    · simp [h]
  · show (if ts == sentinelTime then none else parseTimeHMS ts) = none ↔ _
    by_cases h : ts = sentinelTime
    · simp [h]
    · simp [h]
  · intro h
    show (if ds == sentinelDate then none else parseDateYMD ds) = _
    rw [if_neg (by simpa using h)]
  · intro h
    show (if ts == sentinelTime then none else parseTimeHMS ts) = _
    rw [if_neg (by simpa using h)]

/-- C3 witness: on the repository's own sample block the non-sentinel
date `"2014.06.30"` parses, and the record carries it. -/
theorem c3_date_time_policy_witness :
    (builtRecord (parse_pgn_game "id".data sampleBlock)).map ChessGame.date =
      some (some ⟨2014, 6, 30⟩) := by
  obtain ⟨g, hg, _, _, hdate, _⟩ :=
    c3_date_time_policy "id".data (collectHeaders sampleBlock)
      "Rated Bullet game".data "https://lichess.org/QSgawA0K".data
      "ShahinMohammad".data "Drummied".data "1525".data "1458".data "60+0".data
      "0-1".data "2014.06.30".data "22:00:11".data "Mieses Opening".data
      "A00".data "Time forfeit".data .Bullet 1525 1458 ⟨60, 0⟩ .TimeForfeit
      (by decide) (by decide) (by decide) (by decide) (by decide) (by decide)
      (by decide) (by decide) (by decide) (by decide) (by decide) (by decide)
      (by decide) (by decide) (by decide) (by decide) (by decide) (by decide)
  have h2 : parse_pgn_game "id".data sampleBlock = .ok (some g) := hg
  rw [h2]
  simp only [builtRecord, Option.map_some']
  rw [hdate (by decide)]
  decide

/-- C9 counterexample: with WhiteElo `-2147483648` and BlackElo `0` the
builder still constructs a record, and its rating-difference field is
`-2147483648` — negative, and not the absolute difference `2^31`. -/
theorem c9_counterexample :
    getHeader (collectHeaders c9Block) "WhiteElo".data = some "-2147483648".data ∧
    parseI32 "-2147483648".data = some (-2147483648) ∧
    parseI32 "0".data = some 0 ∧
    (builtRecord (parse_pgn_game "id".data c9Block)).map ChessGame.rating_diff =
      some (-2147483648) ∧
    (-2147483648 : Int) < 0 := by
  refine ⟨by decide, by decide, by decide, by decide, by decide⟩

/-- C9 (amended): whenever the magnitude of the true rating difference
fits in `i32` (in particular for all real Elo ratings), the constructed
record's rating-difference field equals the non-negative absolute
difference of the parsed WhiteElo and BlackElo values. -/
theorem c9_rating_diff_abs
    (uuid : List Char) (hs : List (List Char × List Char))
    (ev site wname bname wes bes tcs res ds ts op eco term : List Char)
    (gt : GameType) (w b : Int) (tc : TimeControl) (tt : TerminationType)
    (hE : getHeader hs "Event".data = some ev)
    (hGT : extract_game_type_from_event_string ev = .ok gt)
    (hS : getHeader hs "Site".data = some site)
    (hW : getHeader hs "White".data = some wname)
    (hB : getHeader hs "Black".data = some bname)
    (hWE : getHeader hs "WhiteElo".data = some wes)
    (hWEp : parseI32 wes = some w)
    (hBE : getHeader hs "BlackElo".data = some bes)
    (hBEp : parseI32 bes = some b)
    (hTC : getHeader hs "TimeControl".data = some tcs)
    (hTCp : TimeControl.fromStr tcs = some tc)
    (hR : getHeader hs "Result".data = some res)
    (hD : getHeader hs "UTCDate".data = some ds)
    (hT : getHeader hs "UTCTime".data = some ts)
    (hO : getHeader hs "Opening".data = some op)
    (hEco : getHeader hs "ECO".data = some eco)
    (hTerm : getHeader hs "Termination".data = some term)
    (hTT : extract_termination_type term = .ok tt)
    (habs : (w - b).natAbs ≤ 2 ^ 31 - 1) :
    ∃ g, parse_pgn_game_headers uuid hs = .ok (some g) ∧
      g.rating_diff = ((w - b).natAbs : Int) ∧ 0 ≤ g.rating_diff := by
  refine ⟨_, parse_pgn_game_headers_eq uuid hs ev site wname bname wes bes tcs res
    ds ts op eco term gt w b tc tt hE hGT hS hW hB hWE hWEp hBE hBEp hTC hTCp hR
    hD hT hO hEco hTerm hTT, ?_, ?_⟩
  · exact i32abs_i32sub_of_small w b habs
  · show (0 : Int) ≤ i32abs (i32sub w b)
    rw [i32abs_i32sub_of_small w b habs]
    omega

/-- C9 witness: White Elo 1525 and Black Elo 1458 give rating_diff 67. -/
theorem c9_rating_diff_abs_witness :
    (builtRecord (parse_pgn_game "id".data sampleBlock)).map ChessGame.rating_diff =
      some 67 := by
  obtain ⟨g, hg, h1, _⟩ :=
    c9_rating_diff_abs "id".data (collectHeaders sampleBlock)
      "Rated Bullet game".data "https://lichess.org/QSgawA0K".data
      "ShahinMohammad".data "Drummied".data "1525".data "1458".data "60+0".data
      "0-1".data "2014.06.30".data "22:00:11".data "Mieses Opening".data
      "A00".data "Time forfeit".data .Bullet 1525 1458 ⟨60, 0⟩ .TimeForfeit
      (by decide) (by decide) (by decide) (by decide) (by decide) (by decide)
      (by decide) (by decide) (by decide) (by decide) (by decide) (by decide)
      (by decide) (by decide) (by decide) (by decide) (by decide) (by decide)
      (by decide)
  have h2 : parse_pgn_game "id".data sampleBlock = .ok (some g) := hg
  rw [h2]
  simp only [builtRecord, Option.map_some']
  rw [h1]
  decide

/-- C10: WhiteElo/BlackElo values parsing as negative `i32` integers are
accepted, the block still yields a record, the stored unsigned rating
fields are the signed values reinterpreted modulo `2^32`, and the
rating-difference field is computed from the signed values before the
cast. -/
theorem c10_negative_elo_wrapping
    (uuid : List Char) (hs : List (List Char × List Char))
    (ev site wname bname wes bes tcs res ds ts op eco term : List Char)
    (gt : GameType) (w b : Int) (tc : TimeControl) (tt : TerminationType)
    (hE : getHeader hs "Event".data = some ev)
    (hGT : extract_game_type_from_event_string ev = .ok gt)
    (hS : getHeader hs "Site".data = some site)
    (hW : getHeader hs "White".data = some wname)
    (hB : getHeader hs "Black".data = some bname)
    (hWE : getHeader hs "WhiteElo".data = some wes)
    (hWEp : parseI32 wes = some w)
    (hBE : getHeader hs "BlackElo".data = some bes)
    (hBEp : parseI32 bes = some b)
    (hTC : getHeader hs "TimeControl".data = some tcs)
    (hTCp : TimeControl.fromStr tcs = some tc)
    (hR : getHeader hs "Result".data = some res)
    (hD : getHeader hs "UTCDate".data = some ds)
    (hT : getHeader hs "UTCTime".data = some ts)
    (hO : getHeader hs "Opening".data = some op)
    (hEco : getHeader hs "ECO".data = some eco)
    (hTerm : getHeader hs "Termination".data = some term)
    (hTT : extract_termination_type term = .ok tt) :
    ∃ g, parse_pgn_game_headers uuid hs = .ok (some g) ∧
      g.white_player_elo = (w % 2 ^ 32).toNat ∧
      g.black_player_elo = (b % 2 ^ 32).toNat ∧
      g.rating_diff = i32abs (i32sub w b) :=
  ⟨_, parse_pgn_game_headers_eq uuid hs ev site wname bname wes bes tcs res
    ds ts op eco term gt w b tc tt hE hGT hS hW hB hWE hWEp hBE hBEp hTC hTCp hR
    hD hT hO hEco hTerm hTT, rfl, rfl, rfl⟩

/-- C10 witness: WhiteElo `"-1"` is accepted; the record stores
`4294967295` as the unsigned white rating while rating_diff is `101`,
computed from the signed values `-1` and `100`. -/
theorem c10_negative_elo_wrapping_witness :
    parseI32 "-1".data = some (-1) ∧
    (builtRecord (parse_pgn_game "id".data c10Block)).map ChessGame.white_player_elo =
      some 4294967295 ∧
    (builtRecord (parse_pgn_game "id".data c10Block)).map ChessGame.rating_diff =
      some 101 := by
  obtain ⟨g, hg, h1, _, h3⟩ :=
    c10_negative_elo_wrapping "id".data (collectHeaders c10Block)
      "Rated Bullet game".data "https://lichess.org/QSgawA0K".data
      "ShahinMohammad".data "Drummied".data "-1".data "100".data "60+0".data
      "0-1".data "2014.06.30".data "22:00:11".data "Mieses Opening".data
      "A00".data "Time forfeit".data .Bullet (-1) 100 ⟨60, 0⟩ .TimeForfeit
      (by decide) (by decide) (by decide) (by decide) (by decide) (by decide)
      (by decide) (by decide) (by decide) (by decide) (by decide) (by decide)
      (by decide) (by decide) (by decide) (by decide) (by decide) (by decide)
  have h4 : parse_pgn_game "id".data c10Block = .ok (some g) := hg
  refine ⟨by decide, ?_, ?_⟩
  · rw [h4]
    simp only [builtRecord, Option.map_some']
    rw [h1]
    decide
  · rw [h4]
    simp only [builtRecord, Option.map_some']
    rw [h3]
    decide

end ChessRs
